import Mathlib

/-!
Shallow embedding of the IOCTL control-code subsystem of the `winx`
repository: the codec (CTL_CODE construction and the Extract* field
decoders, name lookup tables, DecodeIOCTL), the formatters, the probe
classifier (ProbeIOCTL), and the discovery engine (ScanIOCTLRange,
DiscoverIOCTLsByDeviceType).

Go `uint32` values are embedded as `Nat` with explicit `% 2^32` wherever
Go's modular arithmetic matters (only the `code++` counter of
`ScanIOCTLRange` can overflow; every other arithmetic operation in the
embedded code stays far below `2^32`).  The external `DeviceIoControl`
primitive is embedded as an oracle `Nat → DeviceIoOutcome` giving, for
each control code, the error signal and byte count the device would
report.
-/

/-- A Go `error` value as seen by `ProbeIOCTL`: `errno e` is a
`syscall.Errno` with numeric value `e`; `other` is any non-`Errno`
error value (the type assertion `err.(syscall.Errno)` fails on it). -/
inductive GoError where
  | errno (e : Nat) : GoError
  | other : GoError
deriving DecidableEq

/-- Outcome of one `DeviceIoControl` call: `err = none` models a `nil`
error (success), `some e` a failure with error value `e`;
`bytesReturned` is the byte count reported by the call. -/
structure DeviceIoOutcome where
  err : Option GoError
  bytesReturned : Nat
deriving DecidableEq

/-- `IOCTLProbeResult` from the source: code probed, validity verdict,
raw error and bytes returned. -/
structure IOCTLProbeResult where
  Code : Nat
  Valid : Bool
  ErrorCode : Option GoError
  BytesReturned : Nat
deriving DecidableEq

/-- `IOCTLComponents` from the source: the decoded view of a control code. -/
structure IOCTLComponents where
  IOCTLCode : Nat
  DeviceType : Nat
  DeviceTypeName : String
  Function : Nat
  Method : Nat
  MethodName : String
  Access : Nat
  AccessName : String
  KnownName : String
deriving DecidableEq

/-- `ExtractDeviceType`: bits 31-16 of a control code. -/
def ExtractDeviceType (ioctlCode : Nat) : Nat :=
  (ioctlCode >>> 16) &&& 0xFFFF

/-- `ExtractFunction`: bits 13-2 of a control code. -/
def ExtractFunction (ioctlCode : Nat) : Nat :=
  (ioctlCode >>> 2) &&& 0xFFF

/-- `ExtractMethod`: bits 1-0 of a control code. -/
def ExtractMethod (ioctlCode : Nat) : Nat :=
  ioctlCode &&& 0x3

/-- `ExtractAccess`: bits 15-14 of a control code. -/
def ExtractAccess (ioctlCode : Nat) : Nat :=
  (ioctlCode >>> 14) &&& 0x3

/-- Modelled from the spec: `CTL_CODE` is declared in the repository's
`device/constants.go`, which is not among the provided sources (only its
tests and callers are).  The spec fixes the bit layout — bits 31-16
device type, 15-14 access, 13-2 function, 1-0 method — and states that
out-of-range inputs are masked (excess bits silently truncated), never
rejected. -/
def CTL_CODE (deviceType function method access : Nat) : Nat :=
  ((deviceType &&& 0xFFFF) <<< 16) ||| ((access &&& 0x3) <<< 14) |||
    ((function &&& 0xFFF) <<< 2) ||| (method &&& 0x3)

/-- Modelled from the spec: the `METHOD_*`, `FILE_*_ACCESS` and
`FILE_DEVICE_*` constants live in the missing `device/constants.go`; the
values are the standard OS-defined ones, which the in-source tests pin
down (`FILE_DEVICE_DISK` = 0x07, `FILE_DEVICE_MASS_STORAGE` = 0x2D, the
known device-type range is 0x00-0x3B, methods are 0-3 and access levels
0-3 in the documented order). -/
def METHOD_BUFFERED : Nat := 0

def METHOD_IN_DIRECT : Nat := 1

def METHOD_OUT_DIRECT : Nat := 2

def METHOD_NEITHER : Nat := 3

def FILE_ANY_ACCESS : Nat := 0

def FILE_READ_ACCESS : Nat := 1

def FILE_WRITE_ACCESS : Nat := 2

def FILE_DEVICE_DISK : Nat := 0x07

def FILE_DEVICE_MASS_STORAGE : Nat := 0x2D

/-- The `deviceTypeNames` map from the source, as an association list in
source order.  The keys are the `FILE_DEVICE_*` constants from the
missing `constants.go`; their numeric values are the standard OS-defined
ones (modelled from the spec, which calls the table "the standard
OS-defined set"; the in-source tests pin 0x07 = DISK, 0x2D =
MASS_STORAGE and the known range 0x00-0x3B). -/
def deviceTypeNames : List (Nat × String) :=
  [(0x01, "BEEP"), (0x02, "CD_ROM"), (0x03, "CD_ROM_FILE_SYSTEM"),
   (0x04, "CONTROLLER"), (0x05, "DATALINK"), (0x06, "DFS"),
   (0x07, "DISK"), (0x08, "DISK_FILE_SYSTEM"), (0x09, "FILE_SYSTEM"),
   (0x0A, "INPORT_PORT"), (0x0B, "KEYBOARD"), (0x0C, "MAILSLOT"),
   (0x0D, "MIDI_IN"), (0x0E, "MIDI_OUT"), (0x0F, "MOUSE"),
   (0x10, "MULTI_UNC_PROVIDER"), (0x11, "NAMED_PIPE"), (0x12, "NETWORK"),
   (0x13, "NETWORK_BROWSER"), (0x14, "NETWORK_FILE_SYSTEM"),
   (0x15, "NULL"), (0x16, "PARALLEL_PORT"), (0x17, "PHYSICAL_NETCARD"),
   (0x18, "PRINTER"), (0x19, "SCANNER"), (0x1A, "SERIAL_MOUSE_PORT"),
   (0x1B, "SERIAL_PORT"), (0x1C, "SCREEN"), (0x1D, "SOUND"),
   (0x1E, "STREAMS"), (0x1F, "TAPE"), (0x20, "TAPE_FILE_SYSTEM"),
   (0x21, "TRANSPORT"), (0x22, "UNKNOWN"), (0x23, "VIDEO"),
   (0x24, "VIRTUAL_DISK"), (0x25, "WAVE_IN"), (0x26, "WAVE_OUT"),
   (0x27, "8042_PORT"), (0x28, "NETWORK_REDIRECTOR"), (0x29, "BATTERY"),
   (0x2A, "BUS_EXTENDER"), (0x2B, "MODEM"), (0x2C, "VDM"),
   (0x2D, "MASS_STORAGE"), (0x2E, "SMB"), (0x2F, "KS"),
   (0x30, "CHANGER"), (0x31, "SMARTCARD"), (0x32, "ACPI"),
   (0x33, "DVD"), (0x34, "FULLSCREEN_VIDEO"), (0x35, "DFS_FILE_SYSTEM"),
   (0x36, "DFS_VOLUME"), (0x37, "SERENUM"), (0x38, "TERMSRV"),
   (0x39, "KSEC"), (0x3A, "FIPS"), (0x3B, "INFINIBAND")]

/-- The `methodNames` map from the source. -/
def methodNames : List (Nat × String) :=
  [(METHOD_BUFFERED, "BUFFERED"), (METHOD_IN_DIRECT, "IN_DIRECT"),
   (METHOD_OUT_DIRECT, "OUT_DIRECT"), (METHOD_NEITHER, "NEITHER")]

/-- The `accessNames` map from the source. -/
def accessNames : List (Nat × String) :=
  [(FILE_ANY_ACCESS, "ANY"), (FILE_READ_ACCESS, "READ"),
   (FILE_WRITE_ACCESS, "WRITE"), (3, "READ_WRITE")]

/-- The `knownIOCTLs` map from the source.  The key values are the
`IOCTL_*` constants from the missing `constants.go`, modelled from the
spec ("a small static table of fully-known standard codes") with the
standard OS values; the geometry code 0x00070000 = `encode(7,0,0,0)` is
pinned by the spec and the tests. -/
def knownIOCTLs : List (Nat × String) :=
  [(0x00070000, "IOCTL_DISK_GET_DRIVE_GEOMETRY"),
   (0x00074004, "IOCTL_DISK_GET_PARTITION_INFO"),
   (0x0007400C, "IOCTL_DISK_GET_DRIVE_LAYOUT"),
   (0x002D1080, "IOCTL_STORAGE_GET_DEVICE_NUMBER"),
   (0x002D1400, "IOCTL_STORAGE_QUERY_PROPERTY"),
   (0x00560000, "IOCTL_VOLUME_GET_VOLUME_DISK_EXTENTS")]

/-- `GetDeviceTypeName` from the source: table lookup, then "CUSTOM" for
values ≥ 0x8000, then "UNKNOWN". -/
def GetDeviceTypeName (deviceType : Nat) : String :=
  match deviceTypeNames.lookup deviceType with
  | some name => name
  | none => if deviceType ≥ 0x8000 then "CUSTOM" else "UNKNOWN"

/-- `GetMethodName` from the source: table lookup with "INVALID" fallback. -/
def GetMethodName (method : Nat) : String :=
  match methodNames.lookup method with
  | some name => name
  | none => "INVALID"

/-- `GetAccessName` from the source: table lookup with "INVALID" fallback. -/
def GetAccessName (access : Nat) : String :=
  match accessNames.lookup access with
  | some name => name
  | none => "INVALID"

/-- `LookupKnownIOCTL` from the source: `(name, found)` is embedded as
`Option String`. -/
def LookupKnownIOCTL (ioctlCode : Nat) : Option String :=
  knownIOCTLs.lookup ioctlCode

/-- `DecodeIOCTL` from the source: extract all four fields, name each,
and attach the known name when present (Go's zero value "" otherwise). -/
def DecodeIOCTL (ioctlCode : Nat) : IOCTLComponents :=
  let deviceType := ExtractDeviceType ioctlCode
  let function := ExtractFunction ioctlCode
  let method := ExtractMethod ioctlCode
  let access := ExtractAccess ioctlCode
  { IOCTLCode := ioctlCode
    DeviceType := deviceType
    DeviceTypeName := GetDeviceTypeName deviceType
    Function := function
    Method := method
    MethodName := GetMethodName method
    Access := access
    AccessName := GetAccessName access
    KnownName :=
      match LookupKnownIOCTL ioctlCode with
      | some name => name
      | none => "" }

/-- One hexadecimal digit character, uppercase, as Go's `%X` prints it. -/
def hexDigit (n : Nat) : Char :=
  if n < 10 then Char.ofNat (48 + n) else Char.ofNat (55 + n)

/-- Structural worker for `hexDigits`; the fuel only bounds the
recursion depth and is always supplied large enough (`n + 1` covers
every `n`, since the number of hex digits of `n` is at most `n + 1`). -/
def hexDigitsAux : Nat → Nat → List Char
  | 0, _ => []
  | fuel + 1, n =>
    if n < 16 then [hexDigit n]
    else hexDigitsAux fuel (n / 16) ++ [hexDigit (n % 16)]

/-- Uppercase hexadecimal digits of `n`, most significant first, no
leading zeros (Go's `%X`). -/
def hexDigits (n : Nat) : List Char :=
  hexDigitsAux (n + 1) n

/-- Go's `%0wX`: uppercase hex of `n`, zero-padded on the left to width
`w` (width 0 gives plain `%X`). -/
def hexPad (w n : Nat) : String :=
  let ds := hexDigits n
  String.mk (List.replicate (w - ds.length) '0' ++ ds)

/-- `FormatIOCTL` from the source: optional known-name followed by
`DEVICE_TYPE(function:0xXXX, method:METHOD, access:ACCESS)`, with the
function printed via `%X`. -/
def FormatIOCTL (ioctlCode : Nat) : String :=
  let components := DecodeIOCTL ioctlCode
  let known :=
    if components.KnownName ≠ "" then components.KnownName ++ ": " else ""
  known ++ components.DeviceTypeName ++ "(function:0x" ++
    hexPad 0 components.Function ++ ", method:" ++ components.MethodName ++
    ", access:" ++ components.AccessName ++ ")"

/-- `FormatIOCTLHex` from the source:
`0x%08X [Device:0x%04X Access:0x%X Func:0x%03X Method:0x%X]`. -/
def FormatIOCTLHex (ioctlCode : Nat) : String :=
  let components := DecodeIOCTL ioctlCode
  "0x" ++ hexPad 8 components.IOCTLCode ++
    " [Device:0x" ++ hexPad 4 components.DeviceType ++
    " Access:0x" ++ hexPad 0 components.Access ++
    " Func:0x" ++ hexPad 3 components.Function ++
    " Method:0x" ++ hexPad 0 components.Method ++ "]"

/-- Windows error-code constants: the first six are declared in the
source next to `ProbeIOCTL`; the three `syscall.*` ones come from Go's
standard library with their standard numeric values. -/
def ERROR_INVALID_FUNCTION : Nat := 1

def ERROR_INVALID_PARAMETER : Nat := 87

def ERROR_BAD_LENGTH : Nat := 24

def ERROR_INVALID_USER_BUFFER : Nat := 1784

def ERROR_NOT_SUPPORTED : Nat := 50

def ERROR_CALL_NOT_IMPLEMENTED : Nat := 120

def ERROR_INSUFFICIENT_BUFFER : Nat := 122

def ERROR_MORE_DATA : Nat := 234

def ERROR_ACCESS_DENIED : Nat := 5

/-- `ProbeIOCTL` from the source, with the external `DeviceIoControl`
call abstracted as the oracle `dio`.  `Valid` starts at Go's zero value
`false`; success sets it `true`; a `syscall.Errno` failure goes through
the explicit switch (recognized-but-rejected set → `true`, unrecognized
set → `false`, any other errno → `true`); a non-`Errno` failure leaves
the zero value untouched. -/
def ProbeIOCTL (dio : Nat → DeviceIoOutcome) (ioctlCode : Nat) :
    IOCTLProbeResult :=
  let outcome := dio ioctlCode
  let valid : Bool :=
    match outcome.err with
    | none => true
    | some (GoError.errno e) =>
      if e = ERROR_INSUFFICIENT_BUFFER ∨ e = ERROR_MORE_DATA ∨
          e = ERROR_INVALID_PARAMETER ∨ e = ERROR_BAD_LENGTH ∨
          e = ERROR_INVALID_USER_BUFFER ∨ e = ERROR_ACCESS_DENIED then
        true
      else if e = ERROR_INVALID_FUNCTION ∨ e = ERROR_NOT_SUPPORTED ∨
          e = ERROR_CALL_NOT_IMPLEMENTED then
        false
      else
        true
    | some GoError.other => false
  { Code := ioctlCode
    Valid := valid
    ErrorCode := outcome.err
    BytesReturned := outcome.bytesReturned }

/-- The loop of `ScanIOCTLRange`:
`for code := startCode; code <= endCode; code++`, with the `uint32`
counter wrapping modulo `2^32`.  The fuel bounds the number of loop
iterations; `none` means the loop has not exited within the given fuel.
Returns the trace of probed codes together with the accumulated valid
results. -/
def scanLoop (dio : Nat → DeviceIoOutcome) (endCode : Nat) :
    Nat → Nat → List Nat → List IOCTLProbeResult →
      Option (List Nat × List IOCTLProbeResult)
  | 0, _, _, _ => none
  | fuel + 1, code, trace, results =>
    if code ≤ endCode then
      let result := ProbeIOCTL dio code
      let results' := if result.Valid then results ++ [result] else results
      scanLoop dio endCode fuel ((code + 1) % 2 ^ 32) (trace ++ [code])
        results'
    else
      some (trace, results)

/-- `ScanIOCTLRange` from the source, fuel-instrumented: probes each
code from `startCode` while the counter is `≤ endCode`, keeping valid
results.  `some (trace, results)` means the loop exited within `fuel`
iterations having probed exactly the codes in `trace` (in order). -/
def ScanIOCTLRange (dio : Nat → DeviceIoOutcome)
    (startCode endCode fuel : Nat) :
    Option (List Nat × List IOCTLProbeResult) :=
  scanLoop dio endCode fuel startCode [] []

/-- The `functionRanges` table from `DiscoverIOCTLsByDeviceType`. -/
def functionRanges : List (Nat × Nat) :=
  [(0x000, 0x100), (0x400, 0x600), (0x800, 0x900), (0xF00, 0xFFF)]

/-- The `methods` list from `DiscoverIOCTLsByDeviceType`. -/
def methods : List Nat :=
  [METHOD_BUFFERED, METHOD_IN_DIRECT, METHOD_OUT_DIRECT, METHOD_NEITHER]

/-- The `accessLevels` list from `DiscoverIOCTLsByDeviceType`. -/
def accessLevels : List Nat :=
  [FILE_ANY_ACCESS, FILE_READ_ACCESS, FILE_WRITE_ACCESS, 3]

/-- The inner access loop of `DiscoverIOCTLsByDeviceType` for one
(function, method) pair: probes each access level in order; on the
first valid result it stops (the source's `goto nextFunction`),
reporting `some` result.  Returns the trace of probed codes. -/
def probeAccessLoop (dio : Nat → DeviceIoOutcome) (deviceType fn m : Nat) :
    List Nat → List Nat × Option IOCTLProbeResult
  | [] => ([], none)
  | access :: rest =>
    let code := CTL_CODE deviceType fn m access
    let result := ProbeIOCTL dio code
    if result.Valid then ([code], some result)
    else
      let (trace, found) := probeAccessLoop dio deviceType fn m rest
      (code :: trace, found)

/-- The method loop of `DiscoverIOCTLsByDeviceType` for one function
value: runs the access loop for each method in order, stopping at the
first valid result (the `goto nextFunction`). -/
def probeMethodLoop (dio : Nat → DeviceIoOutcome) (deviceType fn : Nat) :
    List Nat → List Nat × Option IOCTLProbeResult
  | [] => ([], none)
  | m :: rest =>
    match probeAccessLoop dio deviceType fn m accessLevels with
    | (trace, some result) => (trace, some result)
    | (trace, none) =>
      let (trace', found) := probeMethodLoop dio deviceType fn rest
      (trace ++ trace', found)

/-- The function loop of `DiscoverIOCTLsByDeviceType` over one
sub-range: `for function := start; function <= end; function++`,
embedded structurally on the iteration count (`count = end - start + 1`;
the function counter never nears `2^32`, the ranges end at 0xFFF).
Each function value contributes its probe trace and its at-most-one
valid result. -/
def discoverFunctionRange (dio : Nat → DeviceIoOutcome) (deviceType : Nat) :
    Nat → Nat → List Nat × List IOCTLProbeResult
  | _, 0 => ([], [])
  | start, count + 1 =>
    let (trace, found) := probeMethodLoop dio deviceType start methods
    let (trace', results) :=
      discoverFunctionRange dio deviceType (start + 1) count
    (trace ++ trace',
      (match found with
       | some result => [result]
       | none => []) ++ results)

/-- `DiscoverIOCTLsByDeviceType` from the source, trace-instrumented:
scans the four curated function sub-ranges in order, probing for each
function value the 4×4 method/access combinations with early exit at
the first valid one. -/
def DiscoverIOCTLsByDeviceType (dio : Nat → DeviceIoOutcome)
    (deviceType : Nat) : List Nat × List IOCTLProbeResult :=
  (functionRanges.map
      (fun r => discoverFunctionRange dio deviceType r.1 (r.2 + 1 - r.1))).foldr
    (fun p acc => (p.1 ++ acc.1, p.2 ++ acc.2)) ([], [])

/-- Verdict of one probe: the `Valid` flag that `ProbeIOCTL` computes for
a code (the spec's Recognized / treated-as-Recognized). -/
def validCode (dio : Nat → DeviceIoOutcome) (code : Nat) : Bool :=
  (ProbeIOCTL dio code).Valid

/-- The prefix of a list of candidate codes that a first-hit-early-exit
loop actually probes: everything up to and including the first code the
predicate accepts (the whole list when no code is accepted). -/
def takeUntilValid (p : Nat → Bool) : List Nat → List Nat
  | [] => []
  | c :: rest => if p c then [c] else c :: takeUntilValid p rest

/-- The 16 candidate codes the discovery engine crosses for one function
value, in probe order: methods outer, access levels inner. -/
def combos (deviceType fn : Nat) : List Nat :=
  methods.flatMap (fun m => accessLevels.map (fun a => CTL_CODE deviceType fn m a))

/-- The codes `DiscoverIOCTLsByDeviceType` probes for one function
value: its combo list cut at the first valid code. -/
def segTrace (dio : Nat → DeviceIoOutcome) (deviceType fn : Nat) : List Nat :=
  takeUntilValid (validCode dio) (combos deviceType fn)

/-- The results `DiscoverIOCTLsByDeviceType` accumulates for one
function value: the probe of the first valid combo, if any. -/
def segResults (dio : Nat → DeviceIoOutcome) (deviceType fn : Nat) :
    List IOCTLProbeResult :=
  (((combos deviceType fn).find? (validCode dio)).map (ProbeIOCTL dio)).toList

/-- All function values the targeted scan visits, in visit order: the
four curated sub-ranges, each ascending. -/
def scannedFunctions : List Nat :=
  functionRanges.flatMap (fun r => List.range' r.1 (r.2 + 1 - r.1))

/-- A constant device-control oracle: every code gets the same outcome
(used to instantiate theorems at concrete inputs). -/
def constDio (o : DeviceIoOutcome) : Nat → DeviceIoOutcome :=
  fun _ => o

theorem lor_shiftLeft_add (a : Nat) : ∀ n, ∀ b : Nat, b < 2^n → (a <<< n) ||| b = a * 2^n + b := by
  intro n
  induction n with
  | zero =>
    intro b hb
    interval_cases b
    simp
  | succ n ih =>
    intro b hb
    have hdiv : ((a <<< (n+1)) ||| b) / 2 = a * 2^n + b / 2 := by
      rw [Nat.or_div_two, Nat.shiftLeft_succ, Nat.mul_div_cancel_left _ (by norm_num : 0 < 2)]
      exact ih (b / 2) (by omega)
    have hsh : (a <<< (n+1)) % 2 = 0 := by
      rw [Nat.shiftLeft_succ]; omega
    have hmod : ((a <<< (n+1)) ||| b) % 2 = b % 2 := by
      rcases Nat.mod_two_eq_zero_or_one b with h | h
      · rcases Nat.mod_two_eq_zero_or_one ((a <<< (n+1)) ||| b) with h2 | h2
        · omega
        · have h3 : (a <<< (n+1)) % 2 = 1 ∨ b % 2 = 1 := Nat.or_mod_two_eq_one.mp h2
          omega
      · have h3 : ((a <<< (n+1)) ||| b) % 2 = 1 := Nat.or_mod_two_eq_one.mpr (Or.inr h)
        omega
    have hfull := Nat.div_add_mod ((a <<< (n+1)) ||| b) 2
    have hb2 := Nat.div_add_mod b 2
    have hpow : a * 2^(n+1) = 2 * (a * 2^n) := by ring
    omega

theorem and_mask_mod (x n : Nat) : x &&& (2^n - 1) = x % 2^n := by
  have h := Nat.and_pow_two_sub_one_eq_mod x n
  omega

theorem CTL_CODE_eq (deviceType function method access : Nat) :
    CTL_CODE deviceType function method access =
      (deviceType % 2^16) * 2^16 + (access % 4) * 2^14 +
        (function % 2^12) * 4 + method % 4 := by
  unfold CTL_CODE
  have hdt : deviceType &&& 0xFFFF = deviceType % 2^16 := by
    have := and_mask_mod deviceType 16; norm_num at this ⊢; omega
  have hacc : access &&& 0x3 = access % 4 := by
    have := and_mask_mod access 2; norm_num at this ⊢; omega
  have hfn : function &&& 0xFFF = function % 2^12 := by
    have := and_mask_mod function 12; norm_num at this ⊢; omega
  have hm : method &&& 0x3 = method % 4 := by
    have := and_mask_mod method 2; norm_num at this ⊢; omega
  rw [hdt, hacc, hfn, hm, Nat.or_assoc, Nat.or_assoc]
  have hmb : method % 4 < 2^2 := by omega
  have h1 : ((function % 2^12) <<< 2) ||| (method % 4) =
      (function % 2^12) * 2^2 + method % 4 :=
    lor_shiftLeft_add _ 2 _ hmb
  rw [h1]
  have hfb : function % 2^12 < 2^12 := Nat.mod_lt _ (by norm_num)
  have h2b : (function % 2^12) * 2^2 + method % 4 < 2^14 := by
    norm_num at hfb ⊢; omega
  have h2 : ((access % 4) <<< 14) ||| ((function % 2^12) * 2^2 + method % 4) =
      (access % 4) * 2^14 + ((function % 2^12) * 2^2 + method % 4) :=
    lor_shiftLeft_add _ 14 _ h2b
  rw [h2]
  have hab : access % 4 < 4 := by omega
  have h3b : (access % 4) * 2^14 + ((function % 2^12) * 2^2 + method % 4) < 2^16 := by
    norm_num at hfb ⊢; omega
  have h3 : ((deviceType % 2^16) <<< 16) |||
      ((access % 4) * 2^14 + ((function % 2^12) * 2^2 + method % 4)) =
      (deviceType % 2^16) * 2^16 +
        ((access % 4) * 2^14 + ((function % 2^12) * 2^2 + method % 4)) :=
    lor_shiftLeft_add _ 16 _ h3b
  rw [h3]
  ring

theorem ExtractDeviceType_CTL (deviceType function method access : Nat) :
    ExtractDeviceType (CTL_CODE deviceType function method access) =
      deviceType % 2^16 := by
  unfold ExtractDeviceType
  rw [CTL_CODE_eq, Nat.shiftRight_eq_div_pow]
  have h := and_mask_mod (((deviceType % 2^16) * 2^16 + (access % 4) * 2^14 +
    (function % 2^12) * 4 + method % 4) / 2^16) 16
  norm_num at h ⊢
  have hdt : deviceType % 65536 < 65536 := Nat.mod_lt _ (by norm_num)
  have hacc : access % 4 < 4 := by omega
  have hfn : function % 4096 < 4096 := Nat.mod_lt _ (by norm_num)
  have hm : method % 4 < 4 := by omega
  omega

theorem ExtractFunction_CTL (deviceType function method access : Nat) :
    ExtractFunction (CTL_CODE deviceType function method access) =
      function % 2^12 := by
  unfold ExtractFunction
  rw [CTL_CODE_eq, Nat.shiftRight_eq_div_pow]
  have h := and_mask_mod (((deviceType % 2^16) * 2^16 + (access % 4) * 2^14 +
    (function % 2^12) * 4 + method % 4) / 2^2) 12
  norm_num at h ⊢
  have hacc : access % 4 < 4 := by omega
  have hfn : function % 4096 < 4096 := Nat.mod_lt _ (by norm_num)
  have hm : method % 4 < 4 := by omega
  omega

theorem ExtractMethod_CTL (deviceType function method access : Nat) :
    ExtractMethod (CTL_CODE deviceType function method access) = method % 4 := by
  unfold ExtractMethod
  rw [CTL_CODE_eq]
  have h := and_mask_mod ((deviceType % 2^16) * 2^16 + (access % 4) * 2^14 +
    (function % 2^12) * 4 + method % 4) 2
  norm_num at h ⊢
  have hm : method % 4 < 4 := by omega
  omega

theorem ExtractAccess_CTL (deviceType function method access : Nat) :
    ExtractAccess (CTL_CODE deviceType function method access) = access % 4 := by
  unfold ExtractAccess
  rw [CTL_CODE_eq, Nat.shiftRight_eq_div_pow]
  have h := and_mask_mod (((deviceType % 2^16) * 2^16 + (access % 4) * 2^14 +
    (function % 2^12) * 4 + method % 4) / 2^14) 2
  norm_num at h ⊢
  have hacc : access % 4 < 4 := by omega
  have hfn : function % 4096 < 4096 := Nat.mod_lt _ (by norm_num)
  have hm : method % 4 < 4 := by omega
  omega

/-- C1: round-trip law — for every deviceType in [0,0xFFFF], function in
[0,0xFFF], method in [0,3] and access in [0,3], the four Extract*
decoders applied to `CTL_CODE(deviceType, function, method, access)`
reproduce exactly that quadruple. -/
theorem ioctl_round_trip (deviceType function method access : Nat)
    (hdt : deviceType ≤ 0xFFFF) (hfn : function ≤ 0xFFF)
    (hm : method ≤ 3) (ha : access ≤ 3) :
    ExtractDeviceType (CTL_CODE deviceType function method access) = deviceType ∧
    ExtractFunction (CTL_CODE deviceType function method access) = function ∧
    ExtractMethod (CTL_CODE deviceType function method access) = method ∧
    ExtractAccess (CTL_CODE deviceType function method access) = access := by
  rw [ExtractDeviceType_CTL, ExtractFunction_CTL, ExtractMethod_CTL, ExtractAccess_CTL]
  norm_num
  omega

theorem ioctl_round_trip_witness :
    (0xFFFF : Nat) ≤ 0xFFFF ∧
    (ExtractDeviceType (CTL_CODE 0xFFFF 0xFFF 3 3) = 0xFFFF ∧
     ExtractFunction (CTL_CODE 0xFFFF 0xFFF 3 3) = 0xFFF ∧
     ExtractMethod (CTL_CODE 0xFFFF 0xFFF 3 3) = 3 ∧
     ExtractAccess (CTL_CODE 0xFFFF 0xFFF 3 3) = 3) :=
  ⟨by norm_num,
   ioctl_round_trip 0xFFFF 0xFFF 3 3 (by norm_num) (by norm_num) (by norm_num) (by norm_num)⟩

/-- C7: encode masking — `CTL_CODE` is total (never rejects), oversized
field values have their excess bits truncated (the code equals the one
built from each field reduced to its in-range bits), the produced code
fits in 32 bits, and each designated bit field of the produced code
holds exactly the in-range bits of its input. -/
theorem ctl_code_masking (deviceType function method access : Nat) :
    CTL_CODE deviceType function method access =
      CTL_CODE (deviceType % 2^16) (function % 2^12) (method % 4) (access % 4) ∧
    CTL_CODE deviceType function method access < 2^32 ∧
    ExtractDeviceType (CTL_CODE deviceType function method access) = deviceType % 2^16 ∧
    ExtractFunction (CTL_CODE deviceType function method access) = function % 2^12 ∧
    ExtractMethod (CTL_CODE deviceType function method access) = method % 4 ∧
    ExtractAccess (CTL_CODE deviceType function method access) = access % 4 := by
  refine ⟨?_, ?_, ExtractDeviceType_CTL .., ExtractFunction_CTL .., ExtractMethod_CTL .., ExtractAccess_CTL ..⟩
  · rw [CTL_CODE_eq, CTL_CODE_eq]
    simp [Nat.mod_mod_of_dvd]
  · rw [CTL_CODE_eq]
    have h1 : deviceType % 2^16 < 2^16 := Nat.mod_lt _ (by norm_num)
    have h2 : access % 4 < 4 := by omega
    have h3 : function % 2^12 < 2^12 := Nat.mod_lt _ (by norm_num)
    have h4 : method % 4 < 4 := by omega
    norm_num at h1 h3 ⊢
    omega

/-- C6: decode totality and sentinel names — for every input,
`DecodeIOCTL` yields a device-type name that is the table name when the
extracted device type is a table key, "CUSTOM" when it is unknown and at
least 0x8000, and "UNKNOWN" for any other unknown value; and the method
name is always one of the four defined names (the "INVALID" fallback is
unreachable, the extracted method being a 2-bit value). -/
theorem decode_totality_sentinels (ioctlCode : Nat) :
    ((∃ name, deviceTypeNames.lookup (ExtractDeviceType ioctlCode) = some name ∧
        (DecodeIOCTL ioctlCode).DeviceTypeName = name) ∨
      (deviceTypeNames.lookup (ExtractDeviceType ioctlCode) = none ∧
        0x8000 ≤ ExtractDeviceType ioctlCode ∧
        (DecodeIOCTL ioctlCode).DeviceTypeName = "CUSTOM") ∨
      (deviceTypeNames.lookup (ExtractDeviceType ioctlCode) = none ∧
        ExtractDeviceType ioctlCode < 0x8000 ∧
        (DecodeIOCTL ioctlCode).DeviceTypeName = "UNKNOWN")) ∧
    (DecodeIOCTL ioctlCode).MethodName ∈
      ["BUFFERED", "IN_DIRECT", "OUT_DIRECT", "NEITHER"] := by
  constructor
  · have hdev : (DecodeIOCTL ioctlCode).DeviceTypeName =
        GetDeviceTypeName (ExtractDeviceType ioctlCode) := rfl
    rw [hdev]
    unfold GetDeviceTypeName
    cases h : deviceTypeNames.lookup (ExtractDeviceType ioctlCode) with
    | some name => exact Or.inl ⟨name, rfl, rfl⟩
    | none =>
      by_cases hc : 0x8000 ≤ ExtractDeviceType ioctlCode
      · exact Or.inr (Or.inl ⟨rfl, hc, by rw [if_pos hc]⟩)
      · exact Or.inr (Or.inr ⟨rfl, by omega, by rw [if_neg hc]⟩)
  · have hmeth : (DecodeIOCTL ioctlCode).MethodName =
        GetMethodName (ExtractMethod ioctlCode) := rfl
    rw [hmeth]
    have hb : ExtractMethod ioctlCode < 4 := by
      unfold ExtractMethod
      have := Nat.and_pow_two_sub_one_eq_mod ioctlCode 2
      norm_num at this
      omega
    have h4 : ExtractMethod ioctlCode = 0 ∨ ExtractMethod ioctlCode = 1 ∨
        ExtractMethod ioctlCode = 2 ∨ ExtractMethod ioctlCode = 3 := by omega
    rcases h4 with h | h | h | h <;> rw [h] <;> decide

/-- C8: known-code fixtures — `CTL_CODE(7,0,0,0)` is 0x00070000, which
decodes with device-type name "DISK", method name "BUFFERED", access
name "ANY" and a non-empty known name; `FormatIOCTLHex` on it returns
exactly the documented string and `FormatIOCTL` on it contains the
substring "DISK(function:0x0, method:BUFFERED, access:ANY)". -/
theorem known_code_fixtures :
    CTL_CODE 7 0 0 0 = 0x00070000 ∧
    (DecodeIOCTL 0x00070000).DeviceTypeName = "DISK" ∧
    (DecodeIOCTL 0x00070000).MethodName = "BUFFERED" ∧
    (DecodeIOCTL 0x00070000).AccessName = "ANY" ∧
    (DecodeIOCTL 0x00070000).KnownName ≠ "" ∧
    FormatIOCTLHex 0x00070000 =
      "0x00070000 [Device:0x0007 Access:0x0 Func:0x000 Method:0x0]" ∧
    (∃ s t, FormatIOCTL 0x00070000 =
      s ++ "DISK(function:0x0, method:BUFFERED, access:ANY)" ++ t) := by
  refine ⟨by decide, by decide, by decide, by decide, by decide, by decide,
    "IOCTL_DISK_GET_DRIVE_GEOMETRY: ", "", by decide⟩

/-- C2: classifier policy — a successful device-control call marks the
code recognized; a failure with one of the six recognized-but-rejected
errnos (insufficient buffer 122, more data 234, invalid parameter 87,
bad length 24, invalid user buffer 1784, access denied 5) marks it
recognized; a failure with one of the three unrecognized errnos
(invalid function 1, not supported 50, call not implemented 120) marks
it unrecognized; a failure with any other errno is treated as
recognized. -/
theorem probe_classifier_policy (dio : Nat → DeviceIoOutcome) (code : Nat) :
    ((dio code).err = none → (ProbeIOCTL dio code).Valid = true) ∧
    (∀ e, (dio code).err = some (GoError.errno e) →
      ((e = ERROR_INSUFFICIENT_BUFFER ∨ e = ERROR_MORE_DATA ∨
          e = ERROR_INVALID_PARAMETER ∨ e = ERROR_BAD_LENGTH ∨
          e = ERROR_INVALID_USER_BUFFER ∨ e = ERROR_ACCESS_DENIED →
        (ProbeIOCTL dio code).Valid = true) ∧
       (e = ERROR_INVALID_FUNCTION ∨ e = ERROR_NOT_SUPPORTED ∨
          e = ERROR_CALL_NOT_IMPLEMENTED →
        (ProbeIOCTL dio code).Valid = false) ∧
       (¬(e = ERROR_INSUFFICIENT_BUFFER ∨ e = ERROR_MORE_DATA ∨
          e = ERROR_INVALID_PARAMETER ∨ e = ERROR_BAD_LENGTH ∨
          e = ERROR_INVALID_USER_BUFFER ∨ e = ERROR_ACCESS_DENIED) →
        ¬(e = ERROR_INVALID_FUNCTION ∨ e = ERROR_NOT_SUPPORTED ∨
          e = ERROR_CALL_NOT_IMPLEMENTED) →
        (ProbeIOCTL dio code).Valid = true))) := by
  constructor
  · intro h
    simp only [ProbeIOCTL]
    rw [h]
  · intro e h
    refine ⟨?_, ?_, ?_⟩
    · intro hmem
      simp only [ProbeIOCTL]
      rw [h]
      simp only []
      rw [if_pos hmem]
    · intro hmem
      by_cases hrec : e = ERROR_INSUFFICIENT_BUFFER ∨ e = ERROR_MORE_DATA ∨
          e = ERROR_INVALID_PARAMETER ∨ e = ERROR_BAD_LENGTH ∨
          e = ERROR_INVALID_USER_BUFFER ∨ e = ERROR_ACCESS_DENIED
      · simp only [ERROR_INSUFFICIENT_BUFFER, ERROR_MORE_DATA,
          ERROR_INVALID_PARAMETER, ERROR_BAD_LENGTH, ERROR_INVALID_USER_BUFFER,
          ERROR_ACCESS_DENIED, ERROR_INVALID_FUNCTION, ERROR_NOT_SUPPORTED,
          ERROR_CALL_NOT_IMPLEMENTED] at hrec hmem
        omega
      · simp only [ProbeIOCTL]
        rw [h]
        simp only []
        rw [if_neg hrec, if_pos hmem]
    · intro h1 h2
      simp only [ProbeIOCTL]
      rw [h]
      simp only []
      rw [if_neg h1, if_neg h2]

theorem probe_classifier_policy_witness :
    (constDio ⟨some (GoError.errno 122), 0⟩ 0).err = some (GoError.errno 122) ∧
    (ProbeIOCTL (constDio ⟨some (GoError.errno 122), 0⟩) 0).Valid = true :=
  ⟨rfl,
    ((probe_classifier_policy (constDio ⟨some (GoError.errno 122), 0⟩) 0).2 122
      rfl).1 (by decide)⟩

/-- C9: non-Errno failures — when the device-control call fails with an
error value that is not a `syscall.Errno`, `ProbeIOCTL` leaves `Valid`
at its zero value `false`; the ambiguous-treated-as-recognized default
applies only to Errno-typed errors. -/
theorem probe_non_errno_invalid (dio : Nat → DeviceIoOutcome) (code : Nat)
    (h : (dio code).err = some GoError.other) :
    (ProbeIOCTL dio code).Valid = false := by
  simp only [ProbeIOCTL]
  rw [h]

theorem probe_non_errno_invalid_witness :
    (constDio ⟨some GoError.other, 0⟩ 0).err = some GoError.other ∧
    (ProbeIOCTL (constDio ⟨some GoError.other, 0⟩) 0).Valid = false :=
  ⟨rfl, probe_non_errno_invalid (constDio ⟨some GoError.other, 0⟩) 0 rfl⟩

theorem scanLoop_run (dio : Nat → DeviceIoOutcome) (endCode : Nat)
    (hend : endCode + 1 < 2^32) :
    ∀ n code trace results, code + n = endCode + 1 → ∀ fuel, n + 1 ≤ fuel →
      scanLoop dio endCode fuel code trace results =
        some (trace ++ List.range' code n,
          results ++
            ((List.range' code n).map (ProbeIOCTL dio)).filter
              (fun r => r.Valid)) := by
  intro n
  induction n with
  | zero =>
    intro code trace results hc fuel hf
    obtain ⟨fuel', rfl⟩ : ∃ f, fuel = f + 1 := ⟨fuel - 1, by omega⟩
    have hgt : ¬ code ≤ endCode := by omega
    simp [scanLoop, hgt]
  | succ n ih =>
    intro code trace results hc fuel hf
    obtain ⟨fuel', rfl⟩ : ∃ f, fuel = f + 1 := ⟨fuel - 1, by omega⟩
    have hle : code ≤ endCode := by omega
    have hwrap : (code + 1) % 2^32 = code + 1 := Nat.mod_eq_of_lt (by omega)
    simp only [scanLoop, if_pos hle, hwrap]
    rw [ih (code + 1) (trace ++ [code])
      (if (ProbeIOCTL dio code).Valid then results ++ [ProbeIOCTL dio code]
        else results) (by omega) fuel' (by omega)]
    rw [List.range'_succ]
    by_cases hv : (ProbeIOCTL dio code).Valid
    · simp [hv]
    · simp [hv]

theorem scanLoop_short (dio : Nat → DeviceIoOutcome) (endCode : Nat)
    (hend : endCode + 1 < 2^32) :
    ∀ fuel code trace results, code + fuel ≤ endCode + 1 →
      scanLoop dio endCode fuel code trace results = none := by
  intro fuel
  induction fuel with
  | zero => intro code trace results h; rfl
  | succ fuel ih =>
    intro code trace results h
    have hle : code ≤ endCode := by omega
    have hwrap : (code + 1) % 2^32 = code + 1 := Nat.mod_eq_of_lt (by omega)
    simp only [scanLoop, if_pos hle, hwrap]
    exact ih (code + 1) _ _ (by omega)

theorem scanLoop_max_none (dio : Nat → DeviceIoOutcome) :
    ∀ fuel code trace results, code < 2^32 →
      scanLoop dio (2^32 - 1) fuel code trace results = none := by
  intro fuel
  induction fuel with
  | zero => intro code trace results h; rfl
  | succ fuel ih =>
    intro code trace results h
    have hle : code ≤ 2^32 - 1 := by omega
    simp only [scanLoop, if_pos hle]
    exact ih _ _ _ (Nat.mod_lt _ (by norm_num))

/-- C5 counterexample: at startCode = endCode = 0xFFFFFFFF the uint32
loop counter can never exceed endCode (it wraps to 0 after probing
0xFFFFFFFF), so the scan never exits its loop and never returns a
result, contradicting the claim as stated for all start ≤ end. -/
theorem scan_range_counterexample :
    ¬ ∃ out, ∃ fuel,
      ScanIOCTLRange (constDio ⟨some (GoError.errno 1), 0⟩)
        0xFFFFFFFF 0xFFFFFFFF fuel = some out := by
  rintro ⟨out, fuel, h⟩
  have h32 : (0xFFFFFFFF : Nat) = 2^32 - 1 := by norm_num
  rw [ScanIOCTLRange, h32,
    scanLoop_max_none (constDio ⟨some (GoError.errno 1), 0⟩) fuel (2^32 - 1)
      [] [] (by norm_num)] at h
  exact Option.noConfusion h

/-- C5 amended: for every start ≤ end with end < 0xFFFFFFFF,
`ScanIOCTLRange` probes every code in [start, end] inclusive in
ascending order with no early termination and returns exactly the probe
results classified recognized (Valid = true), in scan order. -/
theorem scan_range_exhaustive (dio : Nat → DeviceIoOutcome)
    (startCode endCode : Nat) (h1 : startCode ≤ endCode)
    (h2 : endCode < 0xFFFFFFFF) (fuel : Nat)
    (h3 : endCode - startCode + 2 ≤ fuel) :
    ScanIOCTLRange dio startCode endCode fuel =
      some (List.range' startCode (endCode - startCode + 1),
        ((List.range' startCode (endCode - startCode + 1)).map
            (ProbeIOCTL dio)).filter (fun r => r.Valid)) := by
  rw [ScanIOCTLRange,
    scanLoop_run dio endCode (by norm_num at h2 ⊢; omega)
      (endCode - startCode + 1) startCode [] [] (by omega) fuel (by omega)]
  simp

theorem scan_range_exhaustive_witness :
    (0 : Nat) ≤ 2 ∧
    ScanIOCTLRange (constDio ⟨none, 0⟩) 0 2 4 =
      some (List.range' 0 3,
        ((List.range' 0 3).map (ProbeIOCTL (constDio ⟨none, 0⟩))).filter
          (fun r => r.Valid)) :=
  ⟨by norm_num,
    scan_range_exhaustive (constDio ⟨none, 0⟩) 0 2 (by norm_num) (by norm_num)
      4 (by norm_num)⟩

/-- C10: for start ≤ end with end < 0xFFFFFFFF the scan loop exits after
exactly end − start + 1 probe calls (it finishes with fuel for
end − start + 2 condition checks, probing exactly the codes
start..end, and has not exited one check earlier), while for
end = 0xFFFFFFFF the loop never exits for any start below 2^32 and any
amount of fuel, since the wrapped uint32 counter never exceeds end. -/
theorem scan_range_termination (dio : Nat → DeviceIoOutcome)
    (startCode endCode : Nat) (h1 : startCode ≤ endCode)
    (h2 : endCode < 0xFFFFFFFF) :
    (∃ results,
      ScanIOCTLRange dio startCode endCode (endCode - startCode + 2) =
        some (List.range' startCode (endCode - startCode + 1), results)) ∧
    ScanIOCTLRange dio startCode endCode (endCode - startCode + 1) = none ∧
    (∀ s, s < 2^32 → ∀ fuel,
      ScanIOCTLRange dio s 0xFFFFFFFF fuel = none) := by
  have h2' : endCode + 1 < 2^32 := by norm_num at h2 ⊢; omega
  refine ⟨⟨_, scan_range_exhaustive dio startCode endCode h1 h2 _ (by omega)⟩,
    ?_, ?_⟩
  · exact scanLoop_short dio endCode h2' _ _ _ _ (by omega)
  · intro s hs fuel
    have h32 : (0xFFFFFFFF : Nat) = 2^32 - 1 := by norm_num
    rw [ScanIOCTLRange, h32]
    exact scanLoop_max_none dio fuel s [] [] hs

theorem scan_range_termination_witness :
    (0 : Nat) ≤ 2 ∧
    ((∃ results,
      ScanIOCTLRange (constDio ⟨none, 0⟩) 0 2 4 =
        some (List.range' 0 3, results)) ∧
    ScanIOCTLRange (constDio ⟨none, 0⟩) 0 2 3 = none ∧
    (∀ s, s < 2^32 → ∀ fuel,
      ScanIOCTLRange (constDio ⟨none, 0⟩) s 0xFFFFFFFF fuel = none)) :=
  ⟨by norm_num,
    scan_range_termination (constDio ⟨none, 0⟩) 0 2 (by norm_num) (by norm_num)⟩

theorem takeUntilValid_append_of_hit (p : Nat → Bool) (l1 l2 : List Nat) (c : Nat)
    (h : l1.find? p = some c) :
    takeUntilValid p (l1 ++ l2) = takeUntilValid p l1 := by
  induction l1 with
  | nil => simp at h
  | cons a rest ih =>
    by_cases ha : p a
    · simp [takeUntilValid, ha]
    · rw [List.find?_cons_of_neg _ ha] at h
      simp [takeUntilValid, ha, ih h]

theorem takeUntilValid_append_of_miss (p : Nat → Bool) (l1 l2 : List Nat)
    (h : l1.find? p = none) :
    takeUntilValid p (l1 ++ l2) = l1 ++ takeUntilValid p l2 := by
  induction l1 with
  | nil => simp
  | cons a rest ih =>
    by_cases ha : p a
    · rw [List.find?_cons_of_pos _ ha] at h
      exact Option.noConfusion h
    · rw [List.find?_cons_of_neg _ ha] at h
      simp [takeUntilValid, ha, ih h]

theorem takeUntilValid_of_miss (p : Nat → Bool) (l : List Nat)
    (h : l.find? p = none) :
    takeUntilValid p l = l := by
  have := takeUntilValid_append_of_miss p l [] h
  simpa [takeUntilValid] using this

theorem probeAccessLoop_eq (dio : Nat → DeviceIoOutcome) (deviceType fn m : Nat) :
    ∀ as : List Nat,
      probeAccessLoop dio deviceType fn m as =
        (takeUntilValid (validCode dio) (as.map (fun a => CTL_CODE deviceType fn m a)),
         ((as.map (fun a => CTL_CODE deviceType fn m a)).find? (validCode dio)).map
           (ProbeIOCTL dio)) := by
  intro as
  induction as with
  | nil => simp [probeAccessLoop, takeUntilValid]
  | cons a rest ih =>
    by_cases hv : validCode dio (CTL_CODE deviceType fn m a)
    · have hv' : (ProbeIOCTL dio (CTL_CODE deviceType fn m a)).Valid = true := hv
      simp [probeAccessLoop, takeUntilValid, hv, hv', List.find?_cons_of_pos]
    · have hv' : ¬ (ProbeIOCTL dio (CTL_CODE deviceType fn m a)).Valid = true := hv
      simp [probeAccessLoop, takeUntilValid, hv, hv', ih,
        List.find?_cons_of_neg]

theorem probeMethodLoop_eq (dio : Nat → DeviceIoOutcome) (deviceType fn : Nat) :
    ∀ ms : List Nat,
      probeMethodLoop dio deviceType fn ms =
        (takeUntilValid (validCode dio)
           (ms.flatMap (fun m => accessLevels.map (fun a => CTL_CODE deviceType fn m a))),
         ((ms.flatMap (fun m => accessLevels.map (fun a => CTL_CODE deviceType fn m a))).find?
            (validCode dio)).map (ProbeIOCTL dio)) := by
  intro ms
  induction ms with
  | nil => simp [probeMethodLoop, takeUntilValid]
  | cons m rest ih =>
    have hblock := probeAccessLoop_eq dio deviceType fn m accessLevels
    cases hfind : (accessLevels.map (fun a => CTL_CODE deviceType fn m a)).find?
        (validCode dio) with
    | some c =>
      simp only [probeMethodLoop, hblock, hfind, Option.map_some, List.flatMap_cons]
      rw [takeUntilValid_append_of_hit _ _ _ c hfind, List.find?_append, hfind]
      rfl
    | none =>
      simp only [probeMethodLoop, hblock, hfind, Option.map_none]
      rw [ih]
      simp only [List.flatMap_cons, List.find?_append, hfind, Option.none_or]
      rw [takeUntilValid_append_of_miss _ _ _ hfind,
        takeUntilValid_of_miss _ _ hfind]
      rfl

theorem discoverFunctionRange_eq (dio : Nat → DeviceIoOutcome) (deviceType : Nat) :
    ∀ count start,
      discoverFunctionRange dio deviceType start count =
        ((List.range' start count).flatMap (fun fn => segTrace dio deviceType fn),
         (List.range' start count).flatMap (fun fn => segResults dio deviceType fn)) := by
  intro count
  induction count with
  | zero => intro start; simp [discoverFunctionRange]
  | succ count ih =>
    intro start
    rw [List.range'_succ]
    simp only [discoverFunctionRange, List.flatMap_cons]
    rw [probeMethodLoop_eq, ih]
    have hc : methods.flatMap
        (fun m => accessLevels.map (fun a => CTL_CODE deviceType start m a)) =
        combos deviceType start := rfl
    rw [hc]
    cases hfind : (combos deviceType start).find? (validCode dio) with
    | some c => simp [segTrace, segResults, hfind]
    | none => simp [segTrace, segResults, hfind]

/-- C4: targeted scan coverage and order — `DiscoverIOCTLsByDeviceType`
probes, for exactly the function values of the four inclusive sub-ranges
[0,0x100], [0x400,0x600], [0x800,0x900], [0xF00,0xFFF] taken in that
order with function values ascending (`scannedFunctions`), the candidate
codes `CTL_CODE(deviceType, fn, method, access)` crossing the four
methods with the four access levels in probe order (`combos`), cut at
the first recognized combination (`takeUntilValid`, the early-exit
rule); the results are the probes of the first recognized combination
of each function value, in the same order. -/
theorem discover_coverage (dio : Nat → DeviceIoOutcome) (deviceType : Nat) :
    DiscoverIOCTLsByDeviceType dio deviceType =
      (scannedFunctions.flatMap (fun fn => segTrace dio deviceType fn),
       scannedFunctions.flatMap (fun fn => segResults dio deviceType fn)) := by
  simp [DiscoverIOCTLsByDeviceType, functionRanges, scannedFunctions,
    discoverFunctionRange_eq]

theorem scannedFunctions_le : ∀ g ∈ scannedFunctions, g ≤ 0xFFF := by
  intro g hg
  simp only [scannedFunctions, functionRanges, List.mem_flatMap] at hg
  obtain ⟨r, hr, hg⟩ := hg
  have hm := List.mem_range'.mp hg
  simp only [List.mem_cons, List.not_mem_nil, or_false] at hr
  rcases hr with rfl | rfl | rfl | rfl <;>
    · obtain ⟨i, hi, rfl⟩ := hm
      omega

theorem scannedFunctions_nodup : scannedFunctions.Nodup := by
  have hr : ∀ s n : Nat, (List.range' s n).Nodup := fun s n =>
    List.nodup_range' s n
  have hd : ∀ s n s' n' : Nat, s + n ≤ s' →
      (List.range' s n).Disjoint (List.range' s' n') := by
    intro s n s' n' h a ha ha'
    obtain ⟨i, hi, rfl⟩ := List.mem_range'.mp ha
    obtain ⟨j, hj, hh⟩ := List.mem_range'.mp ha'
    omega
  simp only [scannedFunctions, functionRanges, List.flatMap_cons,
    List.flatMap_nil, List.append_nil]
  rw [List.nodup_append, List.nodup_append, List.nodup_append]
  refine ⟨hr _ _, ⟨hr _ _, ⟨hr _ _, hr _ _, hd _ _ _ _ (by norm_num)⟩, ?_⟩, ?_⟩
  · intro a ha ha'
    rw [List.mem_append] at ha'
    obtain ⟨i, hi, rfl⟩ := List.mem_range'.mp ha
    rcases ha' with h | h <;>
      · obtain ⟨j, hj, hh⟩ := List.mem_range'.mp h
        omega
  · intro a ha ha'
    rw [List.mem_append, List.mem_append] at ha'
    obtain ⟨i, hi, rfl⟩ := List.mem_range'.mp ha
    rcases ha' with h | h | h <;>
      · obtain ⟨j, hj, hh⟩ := List.mem_range'.mp h
        omega

theorem mem_takeUntilValid (p : Nat → Bool) :
    ∀ l : List Nat, ∀ c ∈ takeUntilValid p l, c ∈ l := by
  intro l
  induction l with
  | nil => simp [takeUntilValid]
  | cons a rest ih =>
    intro c hc
    by_cases ha : p a
    · simp only [takeUntilValid, if_pos ha] at hc
      simp at hc
      simp [hc]
    · simp only [takeUntilValid, if_neg ha] at hc
      rw [List.mem_cons] at hc
      rcases hc with rfl | hc
      · simp
      · simp [ih c hc]

theorem find?_mem_takeUntilValid (p : Nat → Bool) :
    ∀ l : List Nat, ∀ c, l.find? p = some c → c ∈ takeUntilValid p l := by
  intro l
  induction l with
  | nil => simp
  | cons a rest ih =>
    intro c hc
    by_cases ha : p a
    · rw [List.find?_cons_of_pos _ ha] at hc
      simp only [takeUntilValid, if_pos ha]
      obtain rfl := Option.some_inj.mp hc
      simp
    · rw [List.find?_cons_of_neg _ ha] at hc
      simp only [takeUntilValid, if_neg ha]
      simp [ih c hc]

theorem takeUntilValid_dropLast_invalid (p : Nat → Bool) :
    ∀ l : List Nat, ∀ c ∈ (takeUntilValid p l).dropLast, p c = false := by
  intro l
  induction l with
  | nil => simp [takeUntilValid]
  | cons a rest ih =>
    intro c hc
    by_cases ha : p a
    · simp only [takeUntilValid, if_pos ha] at hc
      simp at hc
    · simp only [takeUntilValid, if_neg ha] at hc
      cases hl : takeUntilValid p rest with
      | nil => rw [hl] at hc; simp at hc
      | cons b t =>
        rw [hl, List.dropLast_cons₂, List.mem_cons] at hc
        rcases hc with rfl | hc
        · simpa using ha
        · exact ih c (hl ▸ hc)

theorem combos_key (deviceType g : Nat) (hg : g ≤ 0xFFF) :
    ∀ c ∈ combos deviceType g, ExtractFunction c = g := by
  intro c hc
  simp only [combos, List.mem_flatMap, List.mem_map] at hc
  obtain ⟨m, hm, a, ha, rfl⟩ := hc
  rw [ExtractFunction_CTL]
  norm_num at hg ⊢
  omega

theorem segTrace_key (dio : Nat → DeviceIoOutcome) (deviceType g : Nat)
    (hg : g ≤ 0xFFF) :
    ∀ c ∈ segTrace dio deviceType g, ExtractFunction c = g := by
  intro c hc
  exact combos_key deviceType g hg c
    (mem_takeUntilValid _ _ c hc)

theorem segResults_key (dio : Nat → DeviceIoOutcome) (deviceType g : Nat)
    (hg : g ≤ 0xFFF) :
    ∀ x ∈ segResults dio deviceType g, ExtractFunction x.Code = g := by
  intro x hx
  simp only [segResults, Option.toList, Option.map_eq_map] at hx
  cases hfind : (combos deviceType g).find? (validCode dio) with
  | none => rw [hfind] at hx; simp at hx
  | some c =>
    rw [hfind] at hx
    simp at hx
    subst hx
    have hcmem : c ∈ combos deviceType g := List.mem_of_find?_eq_some hfind
    have : (ProbeIOCTL dio c).Code = c := rfl
    rw [this]
    exact combos_key deviceType g hg c hcmem

theorem filter_flatMap_single {α : Type} (key : α → Nat) (fn : Nat) :
    ∀ (gs : List Nat) (seg : Nat → List α), gs.Nodup →
      (∀ g ∈ gs, ∀ x ∈ seg g, key x = g) →
      (gs.flatMap seg).filter (fun x => key x == fn) =
        if fn ∈ gs then seg fn else [] := by
  intro gs
  induction gs with
  | nil => intro seg hnd hkey; simp
  | cons g rest ih =>
    intro seg hnd hkey
    obtain ⟨hg_not, hnd'⟩ := List.nodup_cons.mp hnd
    simp only [List.flatMap_cons, List.filter_append]
    rw [ih seg hnd' (fun g' hg' => hkey g' (List.mem_cons_of_mem _ hg'))]
    by_cases hgfn : g = fn
    · subst hgfn
      have h1 : (seg g).filter (fun x => key x == g) = seg g :=
        List.filter_eq_self.mpr (fun x hx => by
          simp [hkey g (List.mem_cons_self _ _) x hx])
      rw [h1, if_neg hg_not, if_pos (List.mem_cons_self _ _)]
      simp
    · have h1 : (seg g).filter (fun x => key x == fn) = [] := by
        rw [List.filter_eq_nil_iff]
        intro x hx
        simp [hkey g (List.mem_cons_self _ _) x hx, hgfn]
      rw [h1]
      by_cases hfn : fn ∈ rest
      · rw [if_pos hfn, if_pos (List.mem_cons_of_mem _ hfn)]
        simp
      · rw [if_neg hfn, if_neg (by simp [hgfn, hfn, Ne.symm])]
        simp

/-- C3: early-exit rule — for every oracle, device type, and function
value: among the codes `DiscoverIOCTLsByDeviceType` probes for that
function value (in probe order), every one except possibly the last is
unrecognized, so no probe for that function value follows a recognized
one; the returned results contain at most one entry per function value,
and exactly one precisely when some probed combination for it was
recognized. -/
theorem discover_early_exit (dio : Nat → DeviceIoOutcome) (deviceType fn : Nat) :
    (∀ c ∈ ((DiscoverIOCTLsByDeviceType dio deviceType).1.filter
        (fun c => ExtractFunction c == fn)).dropLast,
      (ProbeIOCTL dio c).Valid = false) ∧
    ((DiscoverIOCTLsByDeviceType dio deviceType).2.filter
        (fun r => ExtractFunction r.Code == fn)).length ≤ 1 ∧
    (((DiscoverIOCTLsByDeviceType dio deviceType).2.filter
        (fun r => ExtractFunction r.Code == fn)).length = 1 ↔
      ∃ c ∈ (DiscoverIOCTLsByDeviceType dio deviceType).1,
        ExtractFunction c = fn ∧ (ProbeIOCTL dio c).Valid = true) := by
  have hkey1 : ∀ g ∈ scannedFunctions, ∀ c ∈ segTrace dio deviceType g,
      ExtractFunction c = g :=
    fun g hg => segTrace_key dio deviceType g (scannedFunctions_le g hg)
  have hkey2 : ∀ g ∈ scannedFunctions, ∀ x ∈ segResults dio deviceType g,
      ExtractFunction x.Code = g :=
    fun g hg => segResults_key dio deviceType g (scannedFunctions_le g hg)
  have htr : ((DiscoverIOCTLsByDeviceType dio deviceType).1.filter
      (fun c => ExtractFunction c == fn)) =
      if fn ∈ scannedFunctions then segTrace dio deviceType fn else [] := by
    rw [discover_coverage]
    exact filter_flatMap_single ExtractFunction fn scannedFunctions _
      scannedFunctions_nodup hkey1
  have hres : ((DiscoverIOCTLsByDeviceType dio deviceType).2.filter
      (fun r => ExtractFunction r.Code == fn)) =
      if fn ∈ scannedFunctions then segResults dio deviceType fn else [] := by
    rw [discover_coverage]
    exact filter_flatMap_single (fun x : IOCTLProbeResult => ExtractFunction x.Code)
      fn scannedFunctions _ scannedFunctions_nodup hkey2
  by_cases hmem : fn ∈ scannedFunctions
  · rw [if_pos hmem] at htr hres
    refine ⟨?_, ?_, ?_, ?_⟩
    · rw [htr]
      intro c hc
      exact takeUntilValid_dropLast_invalid (validCode dio) _ c hc
    · rw [hres]
      cases hf : (combos deviceType fn).find? (validCode dio) <;>
        simp [segResults, hf]
    · rw [hres]
      intro hlen
      cases hf : (combos deviceType fn).find? (validCode dio) with
      | none => rw [segResults, hf] at hlen; simp at hlen
      | some c =>
        refine ⟨c, ?_, ?_, ?_⟩
        · rw [discover_coverage]
          exact List.mem_flatMap.mpr ⟨fn, hmem,
            find?_mem_takeUntilValid _ _ c hf⟩
        · exact combos_key deviceType fn
            (scannedFunctions_le fn hmem) c (List.mem_of_find?_eq_some hf)
        · have h := List.find?_some hf
          exact h
    · rintro ⟨c, hctr, hcfn, hcval⟩
      rw [hres]
      rw [discover_coverage] at hctr
      obtain ⟨g, hg, hcseg⟩ := List.mem_flatMap.mp hctr
      have hgfn : g = fn := by rw [← hkey1 g hg c hcseg, hcfn]
      subst hgfn
      have hcmem : c ∈ combos deviceType g :=
        mem_takeUntilValid _ _ c hcseg
      have hsome : ((combos deviceType g).find? (validCode dio)).isSome :=
        List.find?_isSome.mpr ⟨c, hcmem, hcval⟩
      cases hf : (combos deviceType g).find? (validCode dio) with
      | none => rw [hf] at hsome; simp at hsome
      | some c' => simp [segResults, hf]
  · rw [if_neg hmem] at htr hres
    refine ⟨?_, ?_, ?_, ?_⟩
    · rw [htr]; simp
    · rw [hres]; simp
    · rw [hres]; simp
    · rintro ⟨c, hctr, hcfn, hcval⟩
      rw [discover_coverage] at hctr
      obtain ⟨g, hg, hcseg⟩ := List.mem_flatMap.mp hctr
      have hgfn : g = fn := by rw [← hkey1 g hg c hcseg, hcfn]
      exact absurd (hgfn ▸ hg) hmem
